import Mathlib

/-!
Verification development for the obsi-css-diff version-picker TUI.

The definitions below are a shallow embedding of the pure data-processing
core of the program:

* `src/obsi_diff/sources/rss.py` — changelog adapter (version extraction,
  engine-version backfill, newest-first ordering);
* `src/obsi_diff/sources/docker_hub.py` — registry tag adapter;
* `src/obsi_diff/sources/electron.py` — engine-to-browser version map;
* `src/obsi_diff/cli.py` — reconciliation, filtering, dedup, sorting,
  search jump and the submit action of the `ObsiVerPicker` app.

Python primitives (`str.lower`, substring `in`, list `sort`/`sorted` with a
key, list/tuple `<`, `%` on ints) are modelled by executable Lean functions
with the same extensional behaviour on the data the program handles.
-/

namespace ObsiDiff

/-! ### Python string primitives -/

/-- Model of Python `str.lower()`.  The program only lowercases ASCII data
(version strings, platform names, ISO dates, status words), on which
`Char.toLower` agrees with Python. -/
def lowerStr (s : String) : String := String.mk (s.data.map Char.toLower)

/-- Does the first list occur at the head of the second? -/
def startsWithL [BEq α] : List α → List α → Bool
  | [], _ => true
  | _ :: _, [] => false
  | x :: xs, y :: ys => x == y && startsWithL xs ys

/-- Does `needle` occur as a contiguous sublist of the second argument? -/
def hasSubL [BEq α] (needle : List α) : List α → Bool
  | [] => needle.isEmpty
  | hay@(_ :: rest) => startsWithL needle hay || hasSubL needle rest

/-- Model of Python `needle in hay` on strings: contiguous substring test. -/
def strContains (hay needle : String) : Bool := hasSubL needle.data hay.data

/-- Model of Python `" ".join(parts)`. -/
def joinSpace : List String → String
  | [] => ""
  | [s] => s
  | s :: t :: rest => s ++ " " ++ joinSpace (t :: rest)

/-! ### Python list comparison and stable sorting -/

/-- Model of Python `<` on lists of ints: compare componentwise; the first
unequal component decides; a proper prefix is less than its extension;
equal lists are not less. -/
def pyListLt : List Int → List Int → Bool
  | _, [] => false
  | [], _ :: _ => true
  | x :: xs, y :: ys => if x < y then true else if y < x then false else pyListLt xs ys

/-- Model of Python `<` on lists of nonnegative ints (used for the ascending
changelog sort key, which has no negation). -/
def natListLt : List Nat → List Nat → Bool
  | _, [] => false
  | [], _ :: _ => true
  | x :: xs, y :: ys => if x < y then true else if y < x then false else natListLt xs ys

/-- Insert `x` into a sorted list, after any element it does not strictly
precede, so that a left-to-right fold is a stable ascending sort. -/
def stableInsert (lt : α → α → Bool) (x : α) : List α → List α
  | [] => [x]
  | y :: ys => if lt x y then x :: y :: ys else y :: stableInsert lt x ys

/-- Fold each element in input order into a sorted accumulator. -/
def stableSortGo (lt : α → α → Bool) : List α → List α → List α
  | acc, [] => acc
  | acc, x :: xs => stableSortGo lt (stableInsert lt x acc) xs

/-- Model of Python `sorted(l, key=...)` / `l.sort(key=...)`: a stable
ascending sort by the strict comparison `lt` (Python's Timsort is stable;
any stable ascending sort by the same strict order is extensionally equal). -/
def stableSort (lt : α → α → Bool) (l : List α) : List α := stableSortGo lt [] l

/-! ### Version-string keys

`cli.py` line 158 and `rss.py` line 58 both build the sort key of a version
string as `[int(p) for p in re.findall(r"\d+", s)]`: every maximal run of
digits, parsed as an integer. -/

/-- Accumulating scan over the characters: `acc` holds the digit run in
progress, if any. -/
def digitRunsAux : List Char → Option Nat → List Nat
  | [], none => []
  | [], some n => [n]
  | c :: cs, acc =>
    if c.isDigit then
      digitRunsAux cs (some (acc.getD 0 * 10 + (c.toNat - 48)))
    else
      match acc with
      | some n => n :: digitRunsAux cs none
      | none => digitRunsAux cs none

/-- Model of `[int(p) for p in re.findall(r"\d+", s)]`. -/
def version_parts (s : String) : List Nat := digitRunsAux s.data none

/-- Negate every component: `[-x for x in v_parts]` (cli.py line 161/162),
so that ascending key order is descending version order. -/
def negKeyOfParts (parts : List Nat) : List Int := parts.map (fun (n : Nat) => -(n : Int))

/-- The version component of `sort_key` in `cli.py`. -/
def versionKey (s : String) : List Int := negKeyOfParts (version_parts s)

/-! ### Data model -/

/-- One normalized registry tag record, as built by
`DockerSource.get_data` (docker_hub.py lines 57-64). -/
structure TagRecord where
  version : String
  tag : String
  last_updated : Option String
deriving DecidableEq

/-- One parsed changelog entry, as appended by `RSSSource.get_data`
(rss.py lines 46-55), before engine-version backfill: `electron` is
`none` when the entry body had no engine-version match. -/
structure RSSRecord where
  version : String
  type : String
  date : String
  electron : Option String
  title : String
deriving DecidableEq

/-- A changelog record after backfill: `electron` is always present
(rss.py lines 60-65 assign every record a string). -/
structure TableRecord where
  version : String
  type : String
  date : String
  electron : String
  title : String
deriving DecidableEq

/-! ### Changelog adapter: sort, backfill, reverse (rss.py lines 57-67) -/

/-- Ascending sort comparison of rss.py line 58:
`key=lambda x: [int(p) for p in re.findall(r"\d+", x["version"])]`. -/
def rssLt (a b : RSSRecord) : Bool := natListLt (version_parts a.version) (version_parts b.version)

/-- The forward walk of rss.py lines 60-65: `last` is the most recently seen
non-missing engine version; a record with `electron` present updates `last`,
a record without inherits `last`. -/
def backfillGo : String → List RSSRecord → List TableRecord
  | _, [] => []
  | last, r :: rs =>
    match r.electron with
    | some e => ⟨r.version, r.type, r.date, e, r.title⟩ :: backfillGo e rs
    | none => ⟨r.version, r.type, r.date, last, r.title⟩ :: backfillGo last rs

/-- The pure tail of `RSSSource.get_data` (rss.py lines 57-67): sort ascending
by numeric version components, backfill engine versions forward with initial
default "13.0.0", then reverse to newest-first. -/
def rssNormalize (entries : List RSSRecord) : List TableRecord :=
  (backfillGo "13.0.0" (stableSort rssLt entries)).reverse

/-! ### Registry tag index and engine map lookups -/

/-- Membership of a version string in the keys of
`docker_map = {v["version"]: v for v in docker}` (cli.py lines 127 and 214). -/
def dockerHas (tags : List TagRecord) (v : String) : Bool :=
  tags.any (fun t => t.version == v)

/-- Model of Python `dict.get(k, d)` on a string-to-string map given as an
association list. -/
def mapGet (m : List (String × String)) (k d : String) : String :=
  match m.find? (fun p => p.1 == k) with
  | some p => p.2
  | none => d

/-- `ElectronSource.map_version` (electron.py lines 43-48):
`mapping_data.get(electron_version, "Unknown")`. -/
def map_version (m : List (String × String)) (electron_version : String) : String :=
  mapGet m electron_version "Unknown"

/-! ### Reconciliation: one table row (cli.py lines 132-140) -/

/-- The per-row data computed in the body of `update_table`'s loop. -/
structure RowData where
  record : TableRecord
  has_d : Bool
  stat : String
  el_v : String
  cr_v : String
  searchable : String
deriving DecidableEq

/-- `is_early = any(x in title for x in ["(Early access)", "(Insider)"])`
(cli.py line 137). -/
def isEarly (title : String) : Bool :=
  strContains title "(Early access)" || strContains title "(Insider)"

/-- Lines 133-140 of cli.py: engine version from the record, browser version
via `electron_map.get(el_v, "---")`, availability flag
`has_d = v in docker_map and t == "Desktop"`, status string
`"Found" if has_d else ("Missing" if t == "Desktop" else "N/A")`, and the
lowercase searchable blob `f"{v} {t} {stat} {date} {el_v} {cr_v}".lower()`. -/
def rowInfo (tags : List TagRecord) (emap : List (String × String)) (r : TableRecord) : RowData :=
  let el_v := r.electron
  let cr_v := mapGet emap el_v "---"
  let has_d := dockerHas tags r.version && r.type == "Desktop"
  let stat := if has_d then "Found" else if r.type == "Desktop" then "Missing" else "N/A"
  let searchable :=
    lowerStr (r.version ++ " " ++ r.type ++ " " ++ stat ++ " " ++ r.date ++ " " ++ el_v ++ " " ++ cr_v)
  ⟨r, has_d, stat, el_v, cr_v, searchable⟩

/-- The dedup key `f"{v}||{t}"` of cli.py lines 152-154. -/
def keyOf (rd : RowData) : String := rd.record.version ++ "||" ++ rd.record.type

/-! ### Session filter state and the visible-row computation -/

/-- The session's filter attributes (cli.py lines 82-86). -/
structure FilterState where
  search_query : String
  show_mobile : Bool
  show_early_access : Bool
  found_only : Bool
  sort_by_priority : Bool
deriving DecidableEq

/-- The two `continue` filters of cli.py lines 142-151: the flag filter
(mobile hidden, early-access hidden, found-only) and the query filter
(non-empty query must be a substring of the searchable blob). -/
def passesFilters (st : FilterState) (rd : RowData) : Bool :=
  (!((!st.show_mobile && rd.record.type == "Mobile")
      || (!st.show_early_access && isEarly rd.record.title)
      || (st.found_only && !rd.has_d)))
  && (st.search_query == "" || strContains rd.searchable (lowerStr st.search_query))

/-- The loop of cli.py lines 130-155: per record compute the row data; skip
it if a filter rejects it; then skip it if its `(version, platform)` key was
already seen, otherwise record the key and keep the row. -/
def candGo (st : FilterState) (tags : List TagRecord) (emap : List (String × String)) :
    List TableRecord → List String → List RowData
  | [], _ => []
  | r :: rs, seen =>
    let rd := rowInfo tags emap r
    if passesFilters st rd then
      if seen.contains (keyOf rd) then candGo st tags emap rs seen
      else rd :: candGo st tags emap rs (keyOf rd :: seen)
    else candGo st tags emap rs seen

/-- The `filtered` list of `update_table`, before sorting. -/
def visibleCandidates (st : FilterState) (tags : List TagRecord)
    (emap : List (String × String)) (rows : List TableRecord) : List RowData :=
  candGo st tags emap rows []

/-- First-occurrence-per-key dedup on its own (the `seen` check of cli.py
lines 152-154, with no filters). -/
def dedupGo : List RowData → List String → List RowData
  | [], _ => []
  | rd :: rest, seen =>
    if seen.contains (keyOf rd) then dedupGo rest seen
    else rd :: dedupGo rest (keyOf rd :: seen)

/-- Keep the first row of each `(version, platform)` key. -/
def dedupByKey (l : List RowData) : List RowData := dedupGo l []

/-- `prio = 0 if item[1] else (1 if type == "Mobile" else 2)` (cli.py
line 160). -/
def prio (rd : RowData) : Nat :=
  if rd.has_d then 0 else if rd.record.type == "Mobile" then 1 else 2

/-- The comparison induced by `sort_key` (cli.py lines 157-162): in priority
mode the key is the tuple `(prio, [-x for x in v_parts])`, otherwise just
`[-x for x in v_parts]`; keys are compared by Python tuple/list `<`. -/
def rowLt (st : FilterState) (a b : RowData) : Bool :=
  if st.sort_by_priority then
    decide (prio a < prio b)
      || (prio a == prio b && pyListLt (versionKey a.record.version) (versionKey b.record.version))
  else pyListLt (versionKey a.record.version) (versionKey b.record.version)

/-- The rendered row list: `sorted(filtered, key=sort_key)` (cli.py
line 164). -/
def visibleRows (st : FilterState) (tags : List TagRecord)
    (emap : List (String × String)) (rows : List TableRecord) : List RowData :=
  stableSort (rowLt st) (visibleCandidates st tags emap rows)

/-! ### Submit action (cli.py lines 205-223) -/

/-- The interactive modes relevant to submit: the claim-level abstraction of
the app's screen/focus state.  `confirming v` stands for the pushed
`ConfirmScreen(v)`. -/
inductive Mode where
  | browsing
  | searching
  | confirming (version : String)
  | done
deriving DecidableEq

/-- `action_submit` with the cursor on a row whose version cell text is
`vStr` (the plain text of the rendered version cell is the record's version
string): if `vStr` is not a key of `docker_map`, notify and return leaving
the mode unchanged; otherwise push the confirmation screen.  Returns the new
mode and the notice, if any. -/
def action_submit (tags : List TagRecord) (m : Mode) (vStr : String) : Mode × Option String :=
  if !(dockerHas tags vStr) then (m, some ("No Docker tag for v" ++ vStr))
  else (Mode.confirming vStr, none)

/-! ### Search jump (cli.py lines 268-283) -/

/-- The match test of cli.py line 281:
`q in " ".join(str(x).lower() for x in t.get_row_at(idx))`, where a rendered
row is its list of plain cell texts. -/
def rowMatches (q : String) (row : List String) : Bool :=
  strContains (joinSpace (row.map lowerStr)) q

/-- `idx = (c + i * d) % count` with Python `%` semantics (nonnegative for a
positive modulus). -/
def jumpIdx (c : Nat) (d : Int) (count : Nat) (i : Nat) : Nat :=
  (((c : Int) + (i : Int) * d) % (count : Int)).toNat

/-- `jump_to_match` (cli.py lines 274-283): no-op on an empty query;
otherwise scan `i = 1 .. count-1`, looking at row `(c + i*d) % count`, and
move the cursor to the first matching row, if any. -/
def jump_to_match (query : String) (rows : List (List String)) (c : Nat) (d : Int) : Nat :=
  if query == "" then c
  else
    let count := rows.length
    let q := lowerStr query
    match (List.range' 1 (count - 1)).find?
        (fun i => rowMatches q (rows.getD (jumpIdx c d count i) [])) with
    | some i => jumpIdx c d count i
    | none => c

/-! ### Cache snapshot writes (rss.py line 68, docker_hub.py line 74,
electron.py line 36) -/

/-- Model of the snapshot persistence all three adapters use:
`CACHE_FILE.write_text(json.dumps(...))`.  Python's `Path.write_text` opens
the target with mode "w", which truncates it to empty before the content is
written, so the on-disk states observable if the process is interrupted are:
the old content (before the call), the empty file (after the truncating
open), and the new content (after the write completes). -/
def writeTextStates (old new : String) : List String := [old, "", new]

/-- Model of an atomic write-then-rename of the same snapshot: the temporary
file is not the target, and the rename is atomic, so the target only ever
holds the old or the new content. -/
def atomicWriteStates (old new : String) : List String := [old, new]

/-- A write procedure never corrupts the snapshot when every observable
on-disk state of the target is either the complete old content or the
complete new content. -/
def neverCorrupts (states : List String) (old new : String) : Prop :=
  ∀ s ∈ states, s = old ∨ s = new

instance (states : List String) (old new : String) :
    Decidable (neverCorrupts states old new) := by
  unfold neverCorrupts; infer_instance


/-! ### Helper lemmas: sorting is a permutation -/

theorem stableInsert_perm (lt : α → α → Bool) (x : α) :
    ∀ l : List α, (stableInsert lt x l).Perm (x :: l)
  | [] => List.Perm.refl _
  | y :: ys => by
    unfold stableInsert
    split
    · exact List.Perm.refl _
    · exact ((stableInsert_perm lt x ys).cons y).trans (List.Perm.swap x y ys)

theorem stableSortGo_perm (lt : α → α → Bool) :
    ∀ (l acc : List α), (stableSortGo lt acc l).Perm (acc ++ l)
  | [], acc => by simp [stableSortGo]
  | x :: xs, acc => by
    unfold stableSortGo
    refine (stableSortGo_perm lt xs _).trans ?_
    refine ((stableInsert_perm lt x acc).append_right xs).trans ?_
    simpa using List.perm_middle.symm

theorem stableSort_perm (lt : α → α → Bool) (l : List α) : (stableSort lt l).Perm l := by
  simpa using stableSortGo_perm lt l []

/-! ### Helper lemmas: Python list comparison -/

theorem pyListLt_cons_self (x : Int) (xs ys : List Int) :
    pyListLt (x :: xs) (x :: ys) = pyListLt xs ys := by
  simp [pyListLt]

theorem pyListLt_append_ne_nil (xs extra : List Int) (h : extra ≠ []) :
    pyListLt xs (xs ++ extra) = true := by
  induction xs with
  | nil =>
    cases extra with
    | nil => exact absurd rfl h
    | cons e es => rfl
  | cons x xs ih =>
    rw [List.cons_append, pyListLt_cons_self]
    exact ih

/-! ### Helper lemma: where backfilled engine versions come from -/

theorem backfillGo_inherits :
    ∀ (last : String) (l : List RSSRecord) (t : TableRecord), t ∈ backfillGo last l →
      t.electron = last ∨ ∃ r ∈ l, r.electron = some t.electron
  | _, [], _, h => by simp [backfillGo] at h
  | last, r :: rs, t, h => by
    unfold backfillGo at h
    cases he : r.electron with
    | some e =>
      rw [he] at h
      rcases List.mem_cons.mp h with h | h
      · subst h; exact Or.inr ⟨r, List.mem_cons_self .., by simp [he]⟩
      · rcases backfillGo_inherits e rs t h with h | ⟨r', hr', he'⟩
        · exact Or.inr ⟨r, List.mem_cons_self .., by simp [he, h]⟩
        · exact Or.inr ⟨r', List.mem_cons_of_mem _ hr', he'⟩
    | none =>
      rw [he] at h
      rcases List.mem_cons.mp h with h | h
      · subst h; exact Or.inl rfl
      · rcases backfillGo_inherits last rs t h with h | ⟨r', hr', he'⟩
        · exact Or.inl h
        · exact Or.inr ⟨r', List.mem_cons_of_mem _ hr', he'⟩

/-! ### Claim theorems -/

/-- C1 counterexample: the version comparison used by `sort_key` does not
treat `"1.2"` and `"1.2.0"` as equal — the two keys differ, and the key of
`"1.2"` compares strictly below the key of `"1.2.0"` (so `"1.2"` sorts
strictly above `"1.2.0"` in descending order) instead of comparing equal. -/
theorem c1_counterexample :
    versionKey "1.2" ≠ versionKey "1.2.0"
    ∧ pyListLt (versionKey "1.2") (versionKey "1.2.0") = true := by
  decide

/-- C1 (amended): both sort modes compare version strings via the key
`[-int(p) for each digit run p]` under Python list comparison, which is
componentwise-numeric — `"10.0.0"` sorts above `"9.10.0"`, which sorts above
`"9.9.9"`; a strictly larger leading component sorts above, and equal heads
recurse — but component lists of different lengths are NOT padded with
zeros: a list's key compares strictly below the key of any proper extension
of itself, so for a pair like `"1.2"` and `"1.2.0"` the comparison is a
strict ordering, not equality. -/
theorem c1_amended :
    (pyListLt (versionKey "10.0.0") (versionKey "9.10.0") = true
      ∧ pyListLt (versionKey "9.10.0") (versionKey "9.9.9") = true)
    ∧ (∀ (n m : Nat) (xs ys : List Nat), m < n →
        pyListLt (negKeyOfParts (n :: xs)) (negKeyOfParts (m :: ys)) = true)
    ∧ (∀ (n : Nat) (xs ys : List Nat),
        pyListLt (negKeyOfParts (n :: xs)) (negKeyOfParts (n :: ys))
          = pyListLt (negKeyOfParts xs) (negKeyOfParts ys))
    ∧ (∀ (xs extra : List Nat), extra ≠ [] →
        pyListLt (negKeyOfParts xs) (negKeyOfParts (xs ++ extra)) = true
          ∧ negKeyOfParts xs ≠ negKeyOfParts (xs ++ extra))
    ∧ (∀ (st : FilterState) (a b : RowData), st.sort_by_priority = false →
        rowLt st a b = pyListLt (versionKey a.record.version) (versionKey b.record.version))
    ∧ (∀ (st : FilterState) (a b : RowData), st.sort_by_priority = true → prio a = prio b →
        rowLt st a b = pyListLt (versionKey a.record.version) (versionKey b.record.version)) := by
  refine ⟨by decide, ?_, ?_, ?_, ?_, ?_⟩
  · intro n m xs ys h
    simp only [negKeyOfParts, List.map_cons]
    have hlt : -(n : Int) < -(m : Int) := by omega
    simp [pyListLt, hlt]
  · intro n xs ys
    simp only [negKeyOfParts, List.map_cons]
    exact pyListLt_cons_self _ _ _
  · intro xs extra h
    have hne : extra.map (fun (n : Nat) => -(n : Int)) ≠ [] := by
      cases extra with
      | nil => exact absurd rfl h
      | cons a as => simp
    constructor
    · simp only [negKeyOfParts, List.map_append]
      exact pyListLt_append_ne_nil _ _ hne
    · intro heq
      have hl := congrArg List.length heq
      simp only [negKeyOfParts, List.length_map, List.length_append] at hl
      have hz : extra.length = 0 := by omega
      cases extra with
      | nil => exact h rfl
      | cons a as => simp at hz
  · intro st a b hst
    simp [rowLt, hst]
  · intro st a b hst hp
    simp [rowLt, hst, hp]

/-- C1 amended, witnessed at concrete inputs: a larger head component sorts
above, equal-head recursion, the unpadded proper-prefix case
`[1,2]` vs `[1,2]++[0]`, and the pure-descending sort mode at concrete
rows. -/
theorem c1_amended_witness :
    pyListLt (negKeyOfParts (10 :: [0])) (negKeyOfParts (9 :: [10])) = true
    ∧ (pyListLt (negKeyOfParts [1, 2]) (negKeyOfParts ([1, 2] ++ [0])) = true
        ∧ negKeyOfParts [1, 2] ≠ negKeyOfParts ([1, 2] ++ [0]))
    ∧ rowLt ⟨"", true, true, false, false⟩
        (rowInfo [] [] ⟨"1.2.0", "Desktop", "d", "20.0.0", "t"⟩)
        (rowInfo [] [] ⟨"1.1.0", "Desktop", "d", "20.0.0", "t"⟩)
      = pyListLt (versionKey "1.2.0") (versionKey "1.1.0") := by
  refine ⟨c1_amended.2.1 10 9 [0] [10] (by decide),
          c1_amended.2.2.2.1 [1, 2] [0] (by decide), ?_⟩
  exact c1_amended.2.2.2.2.1 ⟨"", true, true, false, false⟩ _ _ rfl

/-- C2: a reconciled row's availability status is "Found" exactly when the
platform is Desktop and a registry tag record with the same version string
exists; every Mobile row gets "N/A" regardless of tag presence; a Desktop
row whose version is absent from the tag index (including an empty registry
result) gets "Missing". -/
theorem c2_availability (tags : List TagRecord) (emap : List (String × String))
    (r : TableRecord) :
    ((rowInfo tags emap r).stat = "Found"
        ↔ (r.type = "Desktop" ∧ dockerHas tags r.version = true))
    ∧ (r.type = "Mobile" → (rowInfo tags emap r).stat = "N/A")
    ∧ (r.type = "Desktop" → dockerHas tags r.version = false →
        (rowInfo tags emap r).stat = "Missing") := by
  cases hD : dockerHas tags r.version <;> cases hT : r.type == "Desktop" <;>
    simp_all [rowInfo, beq_iff_eq]

/-- C2 witness at a concrete Mobile row with the tag present, and a concrete
Desktop row with an empty registry. -/
theorem c2_availability_witness :
    (rowInfo [⟨"1.2.3", "version-1.2.3", none⟩] [] ⟨"1.2.3", "Mobile", "d", "20.0.0", "t"⟩).stat
      = "N/A"
    ∧ (rowInfo [] [] ⟨"1.2.3", "Desktop", "d", "20.0.0", "t"⟩).stat = "Missing" := by
  exact ⟨(c2_availability [⟨"1.2.3", "version-1.2.3", none⟩] []
            ⟨"1.2.3", "Mobile", "d", "20.0.0", "t"⟩).2.1 rfl,
         (c2_availability [] [] ⟨"1.2.3", "Desktop", "d", "20.0.0", "t"⟩).2.2 rfl (by decide)⟩

/-- C3: the changelog adapter sorts ascending by numeric version components,
backfills each missing engine version with the most recently seen one
(default "13.0.0"), and reverses to newest-first; on the spec's example the
newest-first output assigns engine 20.0.0 to 1.2.0 and 13.0.0 to both 1.1.0
and 1.0.0.  Moreover every backfilled engine version is either the default
"13.0.0" or the present engine version of some input record. -/
theorem c3_backfill :
    (rssNormalize
        [⟨"1.0.0", "Desktop", "d1", some "13.0.0", "t1"⟩,
         ⟨"1.1.0", "Desktop", "d2", none, "t2"⟩,
         ⟨"1.2.0", "Desktop", "d3", some "20.0.0", "t3"⟩]
      = [⟨"1.2.0", "Desktop", "d3", "20.0.0", "t3"⟩,
         ⟨"1.1.0", "Desktop", "d2", "13.0.0", "t2"⟩,
         ⟨"1.0.0", "Desktop", "d1", "13.0.0", "t1"⟩])
    ∧ (∀ (entries : List RSSRecord) (t : TableRecord), t ∈ rssNormalize entries →
        t.electron = "13.0.0" ∨ ∃ r ∈ entries, r.electron = some t.electron) := by
  refine ⟨by decide, ?_⟩
  intro entries t h
  unfold rssNormalize at h
  rw [List.mem_reverse] at h
  rcases backfillGo_inherits _ _ _ h with h | ⟨r, hr, he⟩
  · exact Or.inl h
  · exact Or.inr ⟨r, (stableSort_perm rssLt entries).mem_iff.mp hr, he⟩

/-- C3 witness: the inheritance conjunct applied at the concrete example. -/
theorem c3_backfill_witness :
    (⟨"1.1.0", "Desktop", "d2", "13.0.0", "t2"⟩ : TableRecord).electron = "13.0.0"
    ∨ ∃ r ∈ [(⟨"1.1.0", "Desktop", "d2", none, "t2"⟩ : RSSRecord)],
        r.electron = some (⟨"1.1.0", "Desktop", "d2", "13.0.0", "t2"⟩ : TableRecord).electron := by
  exact c3_backfill.2 [⟨"1.1.0", "Desktop", "d2", none, "t2"⟩]
    ⟨"1.1.0", "Desktop", "d2", "13.0.0", "t2"⟩ (by decide)

/-- C5 counterexample: for a Desktop row whose engine version 20.0.0 is
absent from the (empty) engine map, the browser-engine version shown is the
placeholder "---", not "Unknown". -/
theorem c5_counterexample :
    (rowInfo [] [] ⟨"1.2.3", "Desktop", "2024-01-01", "20.0.0", "t"⟩).cr_v = "---"
    ∧ (rowInfo [] [] ⟨"1.2.3", "Desktop", "2024-01-01", "20.0.0", "t"⟩).cr_v ≠ "Unknown" := by
  decide

/-- C5 (amended): for every row whose engine version string is absent from
the engine map (including an empty map), the browser-engine version shown in
the table is the placeholder "---" (`electron_map.get(el_v, "---")`, cli.py
line 135); the `ElectronSource.map_version` helper, which the table
rendering does not use, is what returns "Unknown". -/
theorem c5_amended (tags : List TagRecord) (emap : List (String × String)) (r : TableRecord)
    (h : emap.find? (fun p => p.1 == r.electron) = none) :
    (rowInfo tags emap r).cr_v = "---" ∧ map_version emap r.electron = "Unknown" := by
  constructor
  · simp [rowInfo, mapGet, h]
  · simp [map_version, mapGet, h]

/-- C5 amended witness at a concrete row and empty map. -/
theorem c5_amended_witness :
    (rowInfo [] [] ⟨"1.2.3", "Desktop", "d", "20.0.0", "t"⟩).cr_v = "---"
    ∧ map_version [] (⟨"1.2.3", "Desktop", "d", "20.0.0", "t"⟩ : TableRecord).electron
        = "Unknown" := by
  exact c5_amended [] [] ⟨"1.2.3", "Desktop", "d", "20.0.0", "t"⟩ rfl


/-- C6: submitting on a row whose availability is Missing is rejected with a
non-fatal notice — the mode is unchanged, in particular there is no
transition to the confirmation modal — while submitting on a row whose
version has a corresponding registry tag pushes the confirmation modal. -/
theorem c6_submit_missing_rejected (tags : List TagRecord) (emap : List (String × String))
    (r : TableRecord) (m : Mode) :
    ((rowInfo tags emap r).stat = "Missing" →
      action_submit tags m r.version = (m, some ("No Docker tag for v" ++ r.version)))
    ∧ (dockerHas tags r.version = true →
      action_submit tags m r.version = (Mode.confirming r.version, none)) := by
  constructor
  · intro hstat
    have hD : dockerHas tags r.version = false := by
      cases hD : dockerHas tags r.version
      · rfl
      · exfalso
        cases hT : r.type == "Desktop" <;> simp [rowInfo, hD, hT] at hstat
    simp [action_submit, hD]
  · intro hD
    simp [action_submit, hD]

/-- C6 witness: with an empty registry a Desktop row is Missing and submit
is rejected in place; with the tag present submit pushes the confirmation
modal. -/
theorem c6_submit_missing_rejected_witness :
    action_submit [] Mode.browsing "1.2.3" = (Mode.browsing, some "No Docker tag for v1.2.3")
    ∧ action_submit [⟨"1.2.3", "version-1.2.3", none⟩] Mode.searching "1.2.3"
        = (Mode.confirming "1.2.3", none) := by
  exact ⟨(c6_submit_missing_rejected [] [] ⟨"1.2.3", "Desktop", "d", "20.0.0", "t"⟩
            Mode.browsing).1 (by decide),
         (c6_submit_missing_rejected [⟨"1.2.3", "version-1.2.3", none⟩] []
            ⟨"1.2.3", "Desktop", "d", "20.0.0", "t"⟩ Mode.searching).2 (by decide)⟩

/-- C8 counterexample: the adapters persist their snapshot with a direct
truncating write (`Path.write_text`), so an interruption between the
truncating open and the write exposes an empty file that is neither the
previous nor the new snapshot — the write is not atomic. -/
theorem c8_counterexample :
    ¬ neverCorrupts (writeTextStates "[\"1.0.0\"]" "[\"1.1.0\"]") "[\"1.0.0\"]" "[\"1.1.0\"]" := by
  decide

/-- C8 (amended): all three adapters write the snapshot with a plain
`CACHE_FILE.write_text(...)`, which truncates the target before writing, not
with a write-then-rename; whenever the old and new snapshots are both
non-empty, the truncated intermediate state corrupts the snapshot, whereas
an atomic write-then-rename would only ever expose the complete old or the
complete new content. -/
theorem c8_amended (old new : String) (h1 : old ≠ "") (h2 : new ≠ "") :
    ¬ neverCorrupts (writeTextStates old new) old new
    ∧ neverCorrupts (atomicWriteStates old new) old new := by
  constructor
  · intro h
    rcases h "" (by simp [writeTextStates]) with h | h
    · exact h1 h.symm
    · exact h2 h.symm
  · intro s hs
    simp only [atomicWriteStates, List.mem_cons, List.not_mem_nil, or_false] at hs
    exact hs

/-- C8 amended witness at two concrete snapshot contents. -/
theorem c8_amended_witness :
    ¬ neverCorrupts (writeTextStates "[\"a\"]" "[\"b\"]") "[\"a\"]" "[\"b\"]"
    ∧ neverCorrupts (atomicWriteStates "[\"a\"]" "[\"b\"]") "[\"a\"]" "[\"b\"]" := by
  exact c8_amended "[\"a\"]" "[\"b\"]" (by decide) (by decide)

/-- C9: `action_submit` decides acceptance solely by whether the selected
row's version string is a key of the registry tag map, ignoring the row's
platform: a Mobile row (availability "N/A") whose version coincides with a
registry tag's version is accepted and opens the confirmation dialog, and in
either base mode acceptance is equivalent to tag-map membership. -/
theorem c9_submit_ignores_platform (tags : List TagRecord) (emap : List (String × String))
    (m : Mode) (r : TableRecord) (hM : r.type = "Mobile")
    (hD : dockerHas tags r.version = true) :
    (rowInfo tags emap r).stat = "N/A"
    ∧ action_submit tags m r.version = (Mode.confirming r.version, none)
    ∧ (∀ v : String,
        ((action_submit tags Mode.browsing v).1 = Mode.confirming v
          ↔ dockerHas tags v = true)
        ∧ ((action_submit tags Mode.searching v).1 = Mode.confirming v
          ↔ dockerHas tags v = true)) := by
  refine ⟨?_, by simp [action_submit, hD], ?_⟩
  · have hT : (r.type == "Desktop") = false := by simp [hM]
    simp [rowInfo, hT]
  · intro v
    cases hv : dockerHas tags v <;> simp [action_submit, hv]

/-- C9 witness: a concrete Mobile row whose version has a registry tag is
accepted into the confirmation dialog. -/
theorem c9_submit_ignores_platform_witness :
    (rowInfo [⟨"1.2.3", "version-1.2.3", none⟩] []
        ⟨"1.2.3", "Mobile", "d", "20.0.0", "t"⟩).stat = "N/A"
    ∧ action_submit [⟨"1.2.3", "version-1.2.3", none⟩] Mode.browsing "1.2.3"
        = (Mode.confirming "1.2.3", none) := by
  have h := c9_submit_ignores_platform [⟨"1.2.3", "version-1.2.3", none⟩] []
    Mode.browsing ⟨"1.2.3", "Mobile", "d", "20.0.0", "t"⟩ rfl (by decide)
  exact ⟨h.1, h.2.1⟩

/-- C10: dedup by the `(version, platform)` key happens only among rows that
pass the filter flags and the query, not on the full list first: if the
first record for a key is excluded by an active filter, a later record with
the same key is admitted to the visible set; with the filter passing both,
the first record represents the key instead. -/
theorem c10_dedup_after_filter (st : FilterState) (tags : List TagRecord)
    (emap : List (String × String)) (r1 r2 : TableRecord)
    (hv : r1.version = r2.version) (ht : r1.type = r2.type) :
    (passesFilters st (rowInfo tags emap r1) = false →
      passesFilters st (rowInfo tags emap r2) = true →
      visibleRows st tags emap [r1, r2] = [rowInfo tags emap r2])
    ∧ (passesFilters st (rowInfo tags emap r1) = true →
      visibleRows st tags emap [r1, r2] = [rowInfo tags emap r1]) := by
  have hkey : keyOf (rowInfo tags emap r2) = keyOf (rowInfo tags emap r1) := by
    simp [keyOf, rowInfo, hv, ht]
  constructor
  · intro h1 h2
    simp [visibleRows, visibleCandidates, candGo, h1, h2, stableSort, stableSortGo, stableInsert]
  · intro h1
    cases h2 : passesFilters st (rowInfo tags emap r2) <;>
      simp [visibleRows, visibleCandidates, candGo, h1, h2, hkey, List.contains_cons,
        stableSort, stableSortGo, stableInsert]

/-- C10 witness: two records with the same `(version, Desktop)` key, the
first early-access; with early-access hidden the second record is the
visible representative, with early-access shown the first is. -/
theorem c10_dedup_after_filter_witness :
    visibleRows ⟨"", true, false, false, true⟩ [] []
        [⟨"1.2.0", "Desktop", "d1", "20.0.0", "Obsidian Desktop 1.2.0 (Early access)"⟩,
         ⟨"1.2.0", "Desktop", "d2", "20.0.0", "Obsidian Desktop 1.2.0"⟩]
      = [rowInfo [] [] ⟨"1.2.0", "Desktop", "d2", "20.0.0", "Obsidian Desktop 1.2.0"⟩]
    ∧ visibleRows ⟨"", true, true, false, true⟩ [] []
        [⟨"1.2.0", "Desktop", "d1", "20.0.0", "Obsidian Desktop 1.2.0 (Early access)"⟩,
         ⟨"1.2.0", "Desktop", "d2", "20.0.0", "Obsidian Desktop 1.2.0"⟩]
      = [rowInfo [] [] ⟨"1.2.0", "Desktop", "d1", "20.0.0", "Obsidian Desktop 1.2.0 (Early access)"⟩] := by
  exact ⟨(c10_dedup_after_filter ⟨"", true, false, false, true⟩ [] []
            ⟨"1.2.0", "Desktop", "d1", "20.0.0", "Obsidian Desktop 1.2.0 (Early access)"⟩
            ⟨"1.2.0", "Desktop", "d2", "20.0.0", "Obsidian Desktop 1.2.0"⟩ rfl rfl).1
            (by decide) (by decide),
         (c10_dedup_after_filter ⟨"", true, true, false, true⟩ [] []
            ⟨"1.2.0", "Desktop", "d1", "20.0.0", "Obsidian Desktop 1.2.0 (Early access)"⟩
            ⟨"1.2.0", "Desktop", "d2", "20.0.0", "Obsidian Desktop 1.2.0"⟩ rfl rfl).2
            (by decide)⟩


/-! ### Helper lemmas for the dedup invariant -/

theorem candGo_keys (st : FilterState) (tags : List TagRecord) (emap : List (String × String)) :
    ∀ (rows : List TableRecord) (seen : List String),
      (candGo st tags emap rows seen).Pairwise (fun a b => keyOf a ≠ keyOf b)
      ∧ ∀ rd ∈ candGo st tags emap rows seen, seen.contains (keyOf rd) = false
  | [], seen => by simp [candGo]
  | r :: rs, seen => by
    unfold candGo
    by_cases hp : passesFilters st (rowInfo tags emap r)
    · simp only [hp, if_true]
      by_cases hs : seen.contains (keyOf (rowInfo tags emap r))
      · simp only [hs, if_true]
        exact candGo_keys st tags emap rs seen
      · simp only [hs, if_false, Bool.false_eq_true]
        rcases candGo_keys st tags emap rs (keyOf (rowInfo tags emap r) :: seen) with ⟨ihp, ihm⟩
        refine ⟨List.Pairwise.cons ?_ ihp, ?_⟩
        · intro rd hrd
          have := ihm rd hrd
          simp only [List.contains_cons, Bool.or_eq_false_iff, beq_eq_false_iff_ne] at this
          exact fun he => this.1 he.symm
        · intro rd hrd
          rcases List.mem_cons.mp hrd with h | h
          · subst h
            simpa using hs
          · have := ihm rd h
            simp only [List.contains_cons, Bool.or_eq_false_iff] at this
            exact this.2
    · simp only [hp, if_false, Bool.false_eq_true]
      exact candGo_keys st tags emap rs seen

theorem candGo_eq_dedupGo (st : FilterState) (tags : List TagRecord)
    (emap : List (String × String)) :
    ∀ (rows : List TableRecord) (seen : List String),
      candGo st tags emap rows seen
        = dedupGo ((rows.map (rowInfo tags emap)).filter (passesFilters st)) seen
  | [], _ => by simp [candGo, dedupGo]
  | r :: rs, seen => by
    unfold candGo
    by_cases hp : passesFilters st (rowInfo tags emap r)
    · simp only [hp, if_true, List.map_cons, List.filter_cons_of_pos hp, dedupGo]
      by_cases hs : seen.contains (keyOf (rowInfo tags emap r))
      · simp only [hs, if_true]
        exact candGo_eq_dedupGo st tags emap rs seen
      · simp only [hs, if_false, Bool.false_eq_true]
        rw [candGo_eq_dedupGo st tags emap rs]
    · simp only [hp, if_false, Bool.false_eq_true, List.map_cons,
        List.filter_cons_of_neg hp]
      exact candGo_eq_dedupGo st tags emap rs seen

/-- C4: for every input and session state the visible row list contains at
most one row per `(version, platform)` key; the visible candidates are
exactly the first-seen-wins dedup of the rows that pass the filters, in
iteration order; and when the filters are at their defaults (mobile shown,
early-access shown, found-only off, empty query) the candidates are the
first-seen-wins dedup of the full newest-first record list, so the first
record encountered for a key wins and all later duplicates are dropped. -/
theorem c4_dedup_key :
    (∀ (st : FilterState) (tags : List TagRecord) (emap : List (String × String))
        (rows : List TableRecord),
      (visibleRows st tags emap rows).Pairwise (fun a b => keyOf a ≠ keyOf b))
    ∧ (∀ (st : FilterState) (tags : List TagRecord) (emap : List (String × String))
        (rows : List TableRecord),
      visibleCandidates st tags emap rows
        = dedupByKey ((rows.map (rowInfo tags emap)).filter (passesFilters st)))
    ∧ (∀ (sb : Bool) (tags : List TagRecord) (emap : List (String × String))
        (rows : List TableRecord),
      visibleCandidates ⟨"", true, true, false, sb⟩ tags emap rows
        = dedupByKey (rows.map (rowInfo tags emap))) := by
  refine ⟨?_, ?_, ?_⟩
  · intro st tags emap rows
    have hperm := stableSort_perm (rowLt st) (visibleCandidates st tags emap rows)
    have hpair := (candGo_keys st tags emap rows []).1
    exact (List.Perm.pairwise_iff (fun h he => h he.symm) hperm).mpr hpair
  · intro st tags emap rows
    exact candGo_eq_dedupGo st tags emap rows []
  · intro sb tags emap rows
    have h := candGo_eq_dedupGo ⟨"", true, true, false, sb⟩ tags emap rows []
    have hall : ∀ rd ∈ rows.map (rowInfo tags emap),
        passesFilters ⟨"", true, true, false, sb⟩ rd = true := by
      intro rd _
      simp [passesFilters]
    rw [List.filter_eq_self.mpr hall] at h
    exact h


/-! ### Helper lemmas for the search jump -/

theorem jumpIdx_lt (c : Nat) (d : Int) (count : Nat) (i : Nat) (h : 0 < count) :
    jumpIdx c d count i < count := by
  unfold jumpIdx
  have h0 : (count : Int) ≠ 0 := by omega
  have h1 : 0 ≤ ((c : Int) + (i : Int) * d) % (count : Int) := Int.emod_nonneg _ h0
  have h2 : ((c : Int) + (i : Int) * d) % (count : Int) < (count : Int) :=
    Int.emod_lt_of_pos _ (by omega)
  omega

theorem getD_mem_of_lt (l : List α) (i : Nat) (d : α) (h : i < l.length) : l.getD i d ∈ l := by
  rw [List.getD_eq_getElem?_getD, List.getElem?_eq_getElem h]
  exact List.getElem_mem h

/-- C7: with a non-empty query, the jump moves the cursor through the visible
rows cyclically in the given direction to a row whose rendered text contains
the lowercased query, and is a no-op when the query is empty or no visible
row matches; whenever it moves the cursor, the target row matches.  On the
spec's scenario — three visible rows of which only row index 2 matches, the
cursor at row 0 — "next match" moves the cursor to row 2, and a subsequent
"next match" leaves the cursor on row 2 rather than erroring; jumps wrap
circularly past either end of the list. -/
theorem c7_jump :
    (∀ (rows : List (List String)) (c : Nat) (d : Int), jump_to_match "" rows c d = c)
    ∧ (∀ (q : String) (rows : List (List String)) (c : Nat) (d : Int),
        (∀ row ∈ rows, rowMatches (lowerStr q) row = false) →
        jump_to_match q rows c d = c)
    ∧ (∀ (q : String) (rows : List (List String)) (c : Nat) (d : Int),
        jump_to_match q rows c d ≠ c →
        rowMatches (lowerStr q) (rows.getD (jump_to_match q rows c d) []) = true)
    ∧ (jump_to_match "mobile"
          [["0", "1.0.0", "Desktop"], ["1", "1.1.0", "Desktop"], ["2", "1.2.0", "Mobile"]]
          0 1 = 2
      ∧ jump_to_match "mobile"
          [["0", "1.0.0", "Desktop"], ["1", "1.1.0", "Desktop"], ["2", "1.2.0", "Mobile"]]
          2 1 = 2
      ∧ jump_to_match "1.0.0"
          [["0", "1.0.0", "Desktop"], ["1", "1.1.0", "Desktop"], ["2", "1.2.0", "Mobile"]]
          1 1 = 0
      ∧ jump_to_match "mobile"
          [["0", "1.0.0", "Desktop"], ["1", "1.1.0", "Desktop"], ["2", "1.2.0", "Mobile"]]
          0 (-1) = 2) := by
  refine ⟨?_, ?_, ?_, by decide, by decide, by decide, by decide⟩
  · intro rows c d
    simp [jump_to_match]
  · intro q rows c d h
    unfold jump_to_match
    cases hq : q == "" with
    | true => simp
    | false =>
      simp only [Bool.false_eq_true, if_false]
      have hnone : (List.range' 1 (rows.length - 1)).find?
          (fun i => rowMatches (lowerStr q) (rows.getD (jumpIdx c d rows.length i) [])) = none := by
        apply List.find?_eq_none.mpr
        intro i hi
        have hlen : 0 < rows.length := by
          rcases Nat.eq_zero_or_pos rows.length with hz | hp
          · rw [hz] at hi; simp at hi
          · exact hp
        have hmem : rows.getD (jumpIdx c d rows.length i) [] ∈ rows :=
          getD_mem_of_lt rows _ [] (jumpIdx_lt c d rows.length i hlen)
        simpa [List.getD_eq_getElem?_getD] using h _ hmem
      rw [hnone]
  · intro q rows c d hne
    unfold jump_to_match at hne ⊢
    cases hq : q == "" with
    | true =>
      rw [hq] at hne
      simp at hne
    | false =>
      rw [hq] at hne
      simp only [Bool.false_eq_true, if_false] at hne ⊢
      cases hf : (List.range' 1 (rows.length - 1)).find?
          (fun i => rowMatches (lowerStr q) (rows.getD (jumpIdx c d rows.length i) [])) with
      | none =>
        rw [hf] at hne
        simp at hne
      | some i =>
        simpa using List.find?_some hf

/-- C7 witness: the no-match no-op and the moved-cursor-matches conjuncts at
concrete inputs. -/
theorem c7_jump_witness :
    jump_to_match "zzz" [["0", "1.0.0", "Desktop"]] 0 1 = 0
    ∧ rowMatches (lowerStr "mobile")
        ([["0", "1.0.0", "Desktop"], ["1", "1.1.0", "Desktop"], ["2", "1.2.0", "Mobile"]].getD
          (jump_to_match "mobile"
            [["0", "1.0.0", "Desktop"], ["1", "1.1.0", "Desktop"], ["2", "1.2.0", "Mobile"]]
            0 1) []) = true := by
  exact ⟨c7_jump.2.1 "zzz" [["0", "1.0.0", "Desktop"]] 0 1 (by decide),
         c7_jump.2.2.1 "mobile"
           [["0", "1.0.0", "Desktop"], ["1", "1.1.0", "Desktop"], ["2", "1.2.0", "Mobile"]]
           0 1 (by decide)⟩

end ObsiDiff
